import Mathlib

/-!
Verification of the Pool Discovery & Swap Routing Engine of a UniswapV3-style
frontend, as a shallow embedding in Lean 4.

Source files embedded here:
- src/hooks/useQuote.ts (minOut slippage formula)
- src/components/SlippageControl.tsx (bps clamping)
- src/lib/univ3/pools.ts (sortTokens)
- src/features/add/AddLiquidityCard.tsx (local sortTokens, alignTick,
  ticksFromPreset full-range branch)
- src/lib/univ3/position.ts (getFullRangeTicks)
- src/features/swap/SwapCard.tsx (getBestDirectPool, getBestViaWethRoute,
  findRoute)
- src/app/api/pools/route.ts (multicallChunked, unwrapAddress, buffered found
  records)
- src/lib/viem/safeMulticall.ts (safeMulticall)
- src/app/api/pools/stream/route.ts (streaming discovery)
- src/lib/univ3/quotes.ts (quoteExactInSingle)

JavaScript strings are modelled as Lean `String` (JS `<`/`>` on strings is
code-unit lexicographic comparison, which coincides with the `String`
linear order for the ASCII hex addresses at play).  JS `bigint` arithmetic
is modelled with `Nat` (all the quantities involved are non-negative and
`/` truncates toward zero on non-negatives, i.e. is floor division).  JS
floating-point numbers feeding `Math.floor`/`Math.ceil` are modelled with
`Rat`; for the magnitudes appearing here (tick quotients with denominators
up to 200, success ratios with denominators up to a chunk size) the double
rounding of the quotient can never cross an integer or the 0.05 threshold,
so the rational model agrees with the float computation.
Fallible chain reads are modelled as `Except`-valued environment functions.
-/

/-- ASCII lower-casing of one character, as `String.prototype.toLowerCase`
acts on the hex-address alphabet. -/
def lowerChar (c : Char) : Char :=
  if 'A' ≤ c ∧ c ≤ 'Z' then Char.ofNat (c.toNat + 32) else c

/-- ASCII lower-casing of a string (JS `toLowerCase` on addresses). -/
def lowerStr (s : String) : String :=
  String.mk (s.data.map lowerChar)

/-- Lexicographic comparison of character lists by code point: the
semantics of the JavaScript `<` operator on strings (code-unit order; for
the ASCII addresses at play code units and code points coincide). -/
def ltChars : List Char → List Char → Bool
  | [], [] => false
  | [], _ :: _ => true
  | _ :: _, [] => false
  | x :: xs, y :: ys => if x = y then ltChars xs ys else decide (x < y)

/-- JS `a < b` on strings. -/
def strLt (a b : String) : Bool :=
  ltChars a.data b.data

theorem ltChars_irrefl (l : List Char) : ltChars l l = false := by
  induction l with
  | nil => rfl
  | cons x xs ih => simp [ltChars, ih]

theorem ltChars_asymm (a b : List Char) (h : ltChars a b = true) :
    ltChars b a = false := by
  induction a generalizing b with
  | nil =>
    cases b with
    | nil => simpa [ltChars] using h
    | cons y ys => simp [ltChars]
  | cons x xs ih =>
    cases b with
    | nil => simpa [ltChars] using h
    | cons y ys =>
      by_cases hxy : x = y
      · subst hxy
        simp only [ltChars, if_pos rfl] at h ⊢
        exact ih ys h
      · simp only [ltChars, if_neg hxy, if_neg (Ne.symm hxy),
          decide_eq_true_eq, decide_eq_false_iff_not] at h ⊢
        exact not_lt.mpr h.le

theorem ltChars_total_of_ne (a b : List Char) (h : a ≠ b) :
    ltChars a b = true ∨ ltChars b a = true := by
  induction a generalizing b with
  | nil =>
    cases b with
    | nil => exact absurd rfl h
    | cons y ys => left; rfl
  | cons x xs ih =>
    cases b with
    | nil => right; rfl
    | cons y ys =>
      by_cases hxy : x = y
      · subst hxy
        have hne : xs ≠ ys := by
          intro he; exact h (by rw [he])
        rcases ih ys hne with h1 | h1
        · left; simpa [ltChars] using h1
        · right; simpa [ltChars] using h1
      · rcases lt_or_gt_of_ne hxy with hlt | hlt
        · left; simp [ltChars, hxy, hlt]
        · right; simp [ltChars, Ne.symm hxy, hlt]

theorem strLt_asymm (a b : String) (h : strLt a b = true) :
    strLt b a = false :=
  ltChars_asymm a.data b.data h

theorem strLt_total_of_ne (a b : String) (h : a ≠ b) :
    strLt a b = true ∨ strLt b a = true :=
  ltChars_total_of_ne a.data b.data fun he => h (by cases a; cases b; simp_all)

/-- The zero address constant used throughout the sources. -/
def ZERO_ADDR : String := "0x0000000000000000000000000000000000000000"

/-! ## Quote & slippage calculator (src/hooks/useQuote.ts, SlippageControl) -/

/-- From src/hooks/useQuote.ts (`minOut` memo):
`if (!amountOut) return 0n; return amountOut - (amountOut * BigInt(slippageBps)) / 10_000n`.
`none` stands for a `null` quote; JS `!amountOut` is also true for `0n`. -/
def minOut (amountOut : Option ℕ) (slippageBps : ℕ) : ℕ :=
  match amountOut with
  | none => 0
  | some a => if a = 0 then 0 else a - a * slippageBps / 10000

/-- From src/components/SlippageControl.tsx:
`Math.max(0, Math.min(5000, Math.floor(n)))` applied to the parsed input. -/
def clampSlippageBps (n : ℚ) : ℤ :=
  max 0 (min 5000 ⌊n⌋)

/-- C1: for `amountOut > 0` and `slippageBps ∈ [0, 5000]`, the quote
calculator returns `minAmountOut = amountOut - ⌊amountOut * slippageBps / 10000⌋`
with `0 ≤ minAmountOut ≤ amountOut`, equality at `slippageBps = 0`, and the
slippage control clamps any entered value into `[0, 5000]` before use. -/
theorem C1_minOut_slippage (a s : ℕ) (ha : 0 < a) (hs : s ≤ 5000) :
    minOut (some a) s = a - a * s / 10000 ∧
    minOut (some a) s ≤ a ∧
    (s = 0 → minOut (some a) s = a) ∧
    (∀ q : ℚ, 0 ≤ clampSlippageBps q ∧ clampSlippageBps q ≤ 5000) := by
  have hne : a ≠ 0 := Nat.pos_iff_ne_zero.mp ha
  refine ⟨by simp [minOut, hne], ?_, ?_, ?_⟩
  · simp only [minOut, hne, if_false]
    exact Nat.sub_le _ _
  · intro h0
    simp [minOut, hne, h0]
  · intro q
    constructor
    · exact le_max_left _ _
    · have : min (5000 : ℤ) ⌊q⌋ ≤ 5000 := min_le_left _ _
      simp only [clampSlippageBps]
      omega

/-- Witness for C1 at the spec's example `amountOut = 1000000`,
`slippageBps = 50`, where `minAmountOut = 995000`. -/
theorem C1_minOut_slippage_witness :
    minOut (some 1000000) 50 = 1000000 - 1000000 * 50 / 10000 ∧
    minOut (some 1000000) 50 ≤ 1000000 := by
  have h := C1_minOut_slippage 1000000 50 (by decide) (by decide)
  exact ⟨h.1, h.2.1⟩

/-! ## Pair canonicalization (src/lib/univ3/pools.ts, AddLiquidityCard.tsx) -/

/-- From src/lib/univ3/pools.ts `sortTokens`: lower-cases both addresses,
throws when they are equal, otherwise returns `(token0, token1, inverted)`
with `token0` the address whose lower-casing is lexicographically smaller
(original casing preserved); `inverted` records whether the caller order
was `token1, token0`. -/
def sortTokens (a b : String) : Except String (String × String × Bool) :=
  if lowerStr a = lowerStr b then
    Except.error "tokenIn and tokenOut cannot be the same"
  else if strLt (lowerStr b) (lowerStr a) then Except.ok (b, a, true)
  else Except.ok (a, b, false)

/-- From src/features/add/AddLiquidityCard.tsx (local `sortTokens`):
`a.toLowerCase() < b.toLowerCase() ? [a, b] : [b, a]` — total, never rejects. -/
def sortTokensAdd (a b : String) : String × String :=
  if strLt (lowerStr a) (lowerStr b) then (a, b) else (b, a)

/-- C2 counterexample: the claim states that for every address `a`,
`sortTokens(a, a)` is rejected as an input error rather than returning a
pair; but the `sortTokens` local to AddLiquidityCard.tsx (one of the cited
implementations) returns the degenerate pair `(a, a)` for equal inputs. -/
theorem C2_counterexample :
    sortTokensAdd "0xAb12" "0xAb12" = ("0xAb12", "0xAb12") := by
  decide

/-- C2 (amended): for addresses distinct case-insensitively, both
`sortTokens` implementations are order-independent and produce a strictly
increasing pair under lower-cased comparison; the univ3 library
`sortTokens` (pools.ts) additionally rejects equal inputs (including case
variants) as an input error, whereas the AddLiquidityCard-local
`sortTokens` returns the degenerate pair unchanged on equal inputs. -/
theorem C2_sortTokens_canonical (a b : String) (hne : lowerStr a ≠ lowerStr b) :
    (∃ t0 t1 i j, sortTokens a b = Except.ok (t0, t1, i) ∧
      sortTokens b a = Except.ok (t0, t1, j) ∧
      strLt (lowerStr t0) (lowerStr t1) = true) ∧
    (∀ c d : String, lowerStr c = lowerStr d →
      sortTokens c d = Except.error "tokenIn and tokenOut cannot be the same") ∧
    sortTokensAdd a b = sortTokensAdd b a ∧
    strLt (lowerStr (sortTokensAdd a b).1) (lowerStr (sortTokensAdd a b).2) = true := by
  refine ⟨?_, ?_, ?_, ?_⟩
  · rcases strLt_total_of_ne _ _ hne with h | h
    · refine ⟨a, b, false, true, ?_, ?_, h⟩
      · simp [sortTokens, hne, strLt_asymm _ _ h]
      · simp [sortTokens, Ne.symm hne, h]
    · refine ⟨b, a, true, false, ?_, ?_, h⟩
      · simp [sortTokens, hne, h]
      · simp [sortTokens, Ne.symm hne, strLt_asymm _ _ h]
  · intro c d hcd
    simp [sortTokens, hcd]
  · rcases strLt_total_of_ne _ _ hne with h | h
    · simp [sortTokensAdd, h, strLt_asymm _ _ h]
    · simp [sortTokensAdd, h, strLt_asymm _ _ h]
  · rcases strLt_total_of_ne _ _ hne with h | h
    · simp [sortTokensAdd, h]
    · simp [sortTokensAdd, h, strLt_asymm _ _ h]

/-- Witness for C2 at the concrete mixed-case pair `"0xCd" / "0xAb"`. -/
theorem C2_sortTokens_canonical_witness :
    sortTokensAdd "0xCd" "0xAb" = sortTokensAdd "0xAb" "0xCd" ∧
    strLt (lowerStr (sortTokensAdd "0xCd" "0xAb").1)
      (lowerStr (sortTokensAdd "0xCd" "0xAb").2) = true := by
  have h := C2_sortTokens_canonical "0xCd" "0xAb" (by decide)
  exact ⟨h.2.2.1, h.2.2.2⟩

/-! ## Tick math (AddLiquidityCard.tsx, src/lib/univ3/position.ts) -/

/-- From AddLiquidityCard.tsx:
`const clampTick = (t) => Math.max(-887272, Math.min(887272, t))`. -/
def clampTick (t : ℤ) : ℤ :=
  max (-887272) (min 887272 t)

/-- JS `Math.floor(a / b)` for integers (floor division). -/
def floorDiv (a b : ℤ) : ℤ :=
  Int.fdiv a b

/-- JS `Math.ceil(a / b)` for an integer `a` and positive integer `b`. -/
def ceilDiv (a b : ℤ) : ℤ :=
  -Int.fdiv (-a) b

/-- From AddLiquidityCard.tsx `alignTick`: clamp the raw tick, divide by
the spacing, floor (`'down'`) or ceil (`'up'`) the quotient
(`Math.trunc` of `alignedQ * spacing` is a no-op on the integer product),
clamp again.  Modelled at integer raw ticks, the only inputs the
full-range claims exercise (the quotients involved are far from integer
boundaries, so the JS double rounding never changes the floor/ceil). -/
def alignTick (t : ℤ) (spacing : ℤ) (up : Bool) : ℤ :=
  let clamped := clampTick t
  let alignedQ := if up then ceilDiv clamped spacing else floorDiv clamped spacing
  clampTick (alignedQ * spacing)

/-- From src/lib/univ3/position.ts `getFullRangeTicks`: floors BOTH
bounds — `Math.floor(TICK_MIN / tickSpacing) * tickSpacing` and
`Math.floor(TICK_MAX / tickSpacing) * tickSpacing` — with no clamp. -/
def getFullRangeTicks (tickSpacing : ℤ) : ℤ × ℤ :=
  (floorDiv (-887272) tickSpacing * tickSpacing,
   floorDiv 887272 tickSpacing * tickSpacing)

/-- From AddLiquidityCard.tsx `ticksFromPreset` (`'full'` branch): ceils
the lower quotient and floors the upper one, staying inside the bounds. -/
def ticksFromPresetFull (spacing : ℤ) : ℤ × ℤ :=
  (ceilDiv (-887272) spacing * spacing,
   floorDiv 887272 spacing * spacing)

/-- C4: at spacing 60, `alignTick` behaves exactly as the claim states
(ceil-aligned lower bound -887220, floor-aligned upper bound 887220, both
multiples of 60 inside `[MIN_TICK, MAX_TICK]`, as does the `'full'` preset)
— but the full-range helper `getFullRangeTicks` of position.ts floors both
bounds and returns a lower bound of -887280, strictly below
`MIN_TICK = -887272`, refuting the claim that no full-range helper ever
returns a bound outside `[MIN_TICK, MAX_TICK]`. -/
theorem C4_full_range_bounds :
    alignTick (-887272) 60 true = -887220 ∧
    alignTick 887272 60 false = 887220 ∧
    (-887220 : ℤ) % 60 = 0 ∧ (887220 : ℤ) % 60 = 0 ∧
    ((-887272 : ℤ) ≤ -887220 ∧ (-887220 : ℤ) ≤ 887272) ∧
    ((-887272 : ℤ) ≤ 887220 ∧ (887220 : ℤ) ≤ 887272) ∧
    ticksFromPresetFull 60 = (-887220, 887220) ∧
    getFullRangeTicks 60 = (-887280, 887220) ∧
    (getFullRangeTicks 60).1 < -887272 := by
  decide

/-! ## Route selection (src/features/swap/SwapCard.tsx) -/

/-- The fee tiers probed by the route finder:
`const FEE_CANDIDATES = [500, 3000, 10000]`. -/
def FEE_CANDIDATES : List ℕ := [500, 3000, 10000]

/-- A route as in SwapCard.tsx: ordered token list, one fee per hop, and
whether the route goes through WETH. -/
structure Route where
  tokens : List String
  fees : List ℕ
  viaWeth : Bool
  deriving DecidableEq

/-- The chain reads the route finder performs: `factory.getPool(t0, t1, fee)`
and `pool.liquidity()`, each of which may throw. -/
structure ChainEnv where
  getPool : String → String → ℕ → Except Unit String
  liquidity : String → Except Unit ℕ

/-- One iteration of the `getBestDirectPool` loop of SwapCard.tsx: sort the
pair, read the pool address (a throw is swallowed and the fee tier skipped),
skip absent pools, read liquidity (ditto), and keep the fee tier iff its
liquidity strictly exceeds the best seen so far. -/
def directStep (env : ChainEnv) (tokenIn tokenOut : String)
    (acc : Option ℕ × ℕ) (fee : ℕ) : Option ℕ × ℕ :=
  let s := if strLt (lowerStr tokenIn) (lowerStr tokenOut) then (tokenIn, tokenOut)
    else (tokenOut, tokenIn)
  match env.getPool s.1 s.2 fee with
  | Except.error _ => acc
  | Except.ok poolAddr =>
    if poolAddr = "" ∨ poolAddr = ZERO_ADDR then acc
    else
      match env.liquidity poolAddr with
      | Except.error _ => acc
      | Except.ok liq => if acc.2 < liq then (some fee, liq) else acc

/-- From SwapCard.tsx `getBestDirectPool`: fold the loop over the fee
candidates and return `null` unless a fee tier with non-zero liquidity was
found. -/
def getBestDirectPool (env : ChainEnv) (tokenIn tokenOut : String) :
    Option (ℕ × ℕ) :=
  match FEE_CANDIDATES.foldl (directStep env tokenIn tokenOut) (none, 0) with
  | (none, _) => none
  | (some f, l) => if l = 0 then none else some (f, l)

/-- One iteration of the `getBestViaWethRoute` loop: read both hop pools,
skip the fee tier if either is absent or any read throws, score the pair by
bottleneck liquidity `min(liq1, liq2)`. -/
def viaStep (env : ChainEnv) (tokenIn tokenOut weth : String)
    (acc : Option ℕ × ℕ) (fee : ℕ) : Option ℕ × ℕ :=
  let p1 := if strLt (lowerStr tokenIn) (lowerStr weth) then (tokenIn, weth)
    else (weth, tokenIn)
  let p2 := if strLt (lowerStr weth) (lowerStr tokenOut) then (weth, tokenOut)
    else (tokenOut, weth)
  match env.getPool p1.1 p1.2 fee with
  | Except.error _ => acc
  | Except.ok pool1 =>
    match env.getPool p2.1 p2.2 fee with
    | Except.error _ => acc
    | Except.ok pool2 =>
      if pool1 = "" ∨ pool1 = ZERO_ADDR ∨ pool2 = "" ∨ pool2 = ZERO_ADDR then acc
      else
        match env.liquidity pool1, env.liquidity pool2 with
        | Except.ok l1, Except.ok l2 =>
          if acc.2 < min l1 l2 then (some fee, min l1 l2) else acc
        | _, _ => acc

/-- From SwapCard.tsx `getBestViaWethRoute`: `null` when WETH is unknown or
one endpoint is WETH itself, otherwise the bottleneck-liquidity fold. -/
def getBestViaWethRoute (env : ChainEnv) (tokenIn tokenOut : String)
    (weth : Option String) : Option (ℕ × ℕ × String) :=
  match weth with
  | none => none
  | some w =>
    if tokenIn = w ∨ tokenOut = w then none
    else
      match FEE_CANDIDATES.foldl (viaStep env tokenIn tokenOut w) (none, 0) with
      | (none, _) => none
      | (some f, l) => if l = 0 then none else some (f, l, w)

/-- From SwapCard.tsx `findRoute`: try the best direct pool; only when that
is `null` fall back to the via-WETH candidate; `none` models the
`"No route found"` outcome. -/
def findRoute (env : ChainEnv) (tokenIn tokenOut : String)
    (weth : Option String) : Option Route :=
  if tokenIn = tokenOut then none
  else
    match getBestDirectPool env tokenIn tokenOut with
    | some (f, _) => some ⟨[tokenIn, tokenOut], [f], false⟩
    | none =>
      match getBestViaWethRoute env tokenIn tokenOut weth with
      | some (f, _, w) => some ⟨[tokenIn, w, tokenOut], [f, f], true⟩
      | none => none

/-- Effective liquidity a fee tier contributes to the direct-pool loop:
the pool's reported liquidity when every read succeeds and the pool is
present, and 0 otherwise (absent pool, thrown read). -/
def effLiqDirect (env : ChainEnv) (tokenIn tokenOut : String) (fee : ℕ) : ℕ :=
  let s := if strLt (lowerStr tokenIn) (lowerStr tokenOut) then (tokenIn, tokenOut)
    else (tokenOut, tokenIn)
  match env.getPool s.1 s.2 fee with
  | Except.error _ => 0
  | Except.ok poolAddr =>
    if poolAddr = "" ∨ poolAddr = ZERO_ADDR then 0
    else
      match env.liquidity poolAddr with
      | Except.error _ => 0
      | Except.ok liq => liq

/-- Effective bottleneck liquidity a fee tier contributes to the via-WETH
loop: `min(liq1, liq2)` when both hop pools are present and all reads
succeed, 0 otherwise. -/
def effLiqVia (env : ChainEnv) (tokenIn tokenOut weth : String) (fee : ℕ) : ℕ :=
  let p1 := if strLt (lowerStr tokenIn) (lowerStr weth) then (tokenIn, weth)
    else (weth, tokenIn)
  let p2 := if strLt (lowerStr weth) (lowerStr tokenOut) then (weth, tokenOut)
    else (tokenOut, weth)
  match env.getPool p1.1 p1.2 fee, env.getPool p2.1 p2.2 fee with
  | Except.ok pool1, Except.ok pool2 =>
    if pool1 = "" ∨ pool1 = ZERO_ADDR ∨ pool2 = "" ∨ pool2 = ZERO_ADDR then 0
    else
      match env.liquidity pool1, env.liquidity pool2 with
      | Except.ok l1, Except.ok l2 => min l1 l2
      | _, _ => 0
  | _, _ => 0

/-- The shape shared by both loops: keep the fee tier iff its score
strictly exceeds the best seen so far (strict `>`, so the first-checked
fee tier wins ties). -/
def bestStep (g : ℕ → ℕ) (acc : Option ℕ × ℕ) (fee : ℕ) : Option ℕ × ℕ :=
  if acc.2 < g fee then (some fee, g fee) else acc

/-- Closed form of the three-candidate maximum-score selection with
first-checked tie-breaking. -/
def bestOf (l1 l2 l3 : ℕ) : Option (ℕ × ℕ) :=
  if l2 ≤ l1 ∧ l3 ≤ l1 then (if l1 = 0 then none else some (500, l1))
  else if l3 ≤ l2 then (if l2 = 0 then none else some (3000, l2))
  else (if l3 = 0 then none else some (10000, l3))

theorem directStep_eq (env : ChainEnv) (ti tu : String) (acc : Option ℕ × ℕ)
    (fee : ℕ) :
    directStep env ti tu acc fee = bestStep (effLiqDirect env ti tu) acc fee := by
  unfold directStep effLiqDirect bestStep
  rcases h : env.getPool
      (if strLt (lowerStr ti) (lowerStr tu) then (ti, tu) else (tu, ti)).1
      (if strLt (lowerStr ti) (lowerStr tu) then (ti, tu) else (tu, ti)).2 fee
    with e | addr
  · simp [h]
  · simp only [h]
    by_cases hz : addr = "" ∨ addr = ZERO_ADDR
    · simp [hz]
    · simp only [hz, if_false]
      rcases hl : env.liquidity addr with e | l
      · simp
      · simp

theorem viaStep_eq (env : ChainEnv) (ti tu w : String) (acc : Option ℕ × ℕ)
    (fee : ℕ) :
    viaStep env ti tu w acc fee = bestStep (effLiqVia env ti tu w) acc fee := by
  unfold viaStep effLiqVia bestStep
  rcases h1 : env.getPool
      (if strLt (lowerStr ti) (lowerStr w) then (ti, w) else (w, ti)).1
      (if strLt (lowerStr ti) (lowerStr w) then (ti, w) else (w, ti)).2 fee
    with e | pool1
  · simp [h1]
  · rcases h2 : env.getPool
        (if strLt (lowerStr w) (lowerStr tu) then (w, tu) else (tu, w)).1
        (if strLt (lowerStr w) (lowerStr tu) then (w, tu) else (tu, w)).2 fee
      with e | pool2
    · simp [h1, h2]
    · simp only [h1, h2]
      by_cases hz : pool1 = "" ∨ pool1 = ZERO_ADDR ∨ pool2 = "" ∨ pool2 = ZERO_ADDR
      · simp [hz]
      · simp only [hz, if_false]
        rcases hl1 : env.liquidity pool1 with e | l1 <;>
          rcases hl2 : env.liquidity pool2 with e2 | l2 <;> simp

/-- The fold over the three fee candidates followed by the zero-liquidity
guard computes the first-tie-winning argmax `bestOf`. -/
theorem bestFold_spec (g : ℕ → ℕ) :
    (match [500, 3000, 10000].foldl (bestStep g) (none, 0) with
     | (none, _) => none
     | (some f, l) => if l = 0 then none else some (f, l)) =
      bestOf (g 500) (g 3000) (g 10000) := by
  simp only [List.foldl, bestStep, bestOf]
  split_ifs <;> simp_all <;> omega

theorem bestOf_eq_some (l1 l2 l3 f l : ℕ) (h : bestOf l1 l2 l3 = some (f, l)) :
    0 < l ∧ l1 ≤ l ∧ l2 ≤ l ∧ l3 ≤ l ∧
      ((f = 500 ∧ l = l1) ∨ (f = 3000 ∧ l = l2 ∧ l1 < l) ∨
       (f = 10000 ∧ l = l3 ∧ l1 < l ∧ l2 < l)) := by
  unfold bestOf at h
  split_ifs at h with hA hz1 hB hz2 hz3 <;>
    simp only [Option.some.injEq, Prod.mk.injEq] at h
  · obtain ⟨hf, hl⟩ := h
    exact ⟨by omega, by omega, by omega, by omega, Or.inl ⟨hf.symm, hl.symm⟩⟩
  · obtain ⟨hf, hl⟩ := h
    refine ⟨by omega, by omega, by omega, by omega,
      Or.inr (Or.inl ⟨hf.symm, hl.symm, by omega⟩)⟩
  · obtain ⟨hf, hl⟩ := h
    refine ⟨by omega, by omega, by omega, by omega,
      Or.inr (Or.inr ⟨hf.symm, hl.symm, by omega, by omega⟩)⟩

theorem getBestDirectPool_spec (env : ChainEnv) (ti tu : String) :
    getBestDirectPool env ti tu =
      bestOf (effLiqDirect env ti tu 500) (effLiqDirect env ti tu 3000)
        (effLiqDirect env ti tu 10000) := by
  have hf : directStep env ti tu = bestStep (effLiqDirect env ti tu) :=
    funext fun acc => funext fun fee => directStep_eq env ti tu acc fee
  unfold getBestDirectPool FEE_CANDIDATES
  rw [hf]
  exact bestFold_spec _

theorem viaGuardMap (r : Option ℕ × ℕ) (w : String) :
    (match r with
     | (none, _) => (none : Option (ℕ × ℕ × String))
     | (some f, l) => if l = 0 then none else some (f, l, w)) =
      Option.map (fun p : ℕ × ℕ => (p.1, p.2, w))
        (match r with
         | (none, _) => (none : Option (ℕ × ℕ))
         | (some f, l) => if l = 0 then none else some (f, l)) := by
  rcases r with ⟨bf | f, l⟩
  · rfl
  · by_cases h0 : l = 0 <;> simp [h0]

theorem getBestViaWethRoute_eq_some (env : ChainEnv) (ti tu : String)
    (weth : Option String) (f l : ℕ) (w : String)
    (h : getBestViaWethRoute env ti tu weth = some (f, l, w)) :
    weth = some w ∧ ti ≠ w ∧ tu ≠ w ∧ 0 < l ∧ l = effLiqVia env ti tu w f := by
  rcases weth with _ | w'
  · exact Option.noConfusion h
  · unfold getBestViaWethRoute at h
    dsimp only at h
    by_cases hg : ti = w' ∨ tu = w'
    · rw [if_pos hg] at h
      exact absurd h (by simp)
    · rw [if_neg hg] at h
      push_neg at hg
      have hfe : viaStep env ti tu w' = bestStep (effLiqVia env ti tu w') :=
        funext fun acc => funext fun fee => viaStep_eq env ti tu w' acc fee
      rw [show FEE_CANDIDATES = [500, 3000, 10000] from rfl, hfe,
        viaGuardMap _ w', bestFold_spec] at h
      rcases hbo : bestOf (effLiqVia env ti tu w' 500) (effLiqVia env ti tu w' 3000)
          (effLiqVia env ti tu w' 10000) with _ | p
      · rw [hbo] at h
        exact absurd h (by simp)
      · rw [hbo] at h
        rcases p with ⟨pf, pl⟩
        simp only [Option.map_some', Option.some.injEq, Prod.mk.injEq] at h
        obtain ⟨hpf, hpl, hw⟩ := h
        subst hw
        obtain ⟨hpos, _, _, _, hdisj⟩ := bestOf_eq_some _ _ _ _ _ hbo
        subst hpf hpl
        refine ⟨rfl, hg.1, hg.2, hpos, ?_⟩
        rcases hdisj with ⟨hf5, hl5⟩ | ⟨hf3, hl3, _⟩ | ⟨hf10, hl10, _, _⟩
        · simp [hf5, hl5]
        · simp [hf3, hl3]
        · simp [hf10, hl10]

/-- A concrete chain for the spec's route-selection example: direct pools
for the pair `0xaa/0xcc` at the three fee tiers, reporting liquidity
`{500 : 1000, 3000 : 5000, 10000 : 200}`. -/
def envEx : ChainEnv where
  getPool := fun t0 t1 fee =>
    if t0 = "0xaa" ∧ t1 = "0xcc" then
      if fee = 500 then Except.ok "0xe1"
      else if fee = 3000 then Except.ok "0xe2"
      else if fee = 10000 then Except.ok "0xe3"
      else Except.ok ZERO_ADDR
    else Except.ok ZERO_ADDR
  liquidity := fun p =>
    if p = "0xe1" then Except.ok 1000
    else if p = "0xe2" then Except.ok 5000
    else if p = "0xe3" then Except.ok 200
    else Except.error ()

/-- A concrete chain where the only direct pool of `0xaa/0xcc` (fee 500)
exists but reports zero liquidity, while both via-WETH hop pools at fee
500 exist with liquidity 7 and 9. -/
def envZeroDirect : ChainEnv where
  getPool := fun t0 t1 fee =>
    if t0 = "0xaa" ∧ t1 = "0xcc" ∧ fee = 500 then Except.ok "0xd1"
    else if t0 = "0xaa" ∧ t1 = "0xbb" ∧ fee = 500 then Except.ok "0xp1"
    else if t0 = "0xbb" ∧ t1 = "0xcc" ∧ fee = 500 then Except.ok "0xp2"
    else Except.ok ZERO_ADDR
  liquidity := fun p =>
    if p = "0xd1" then Except.ok 0
    else if p = "0xp1" then Except.ok 7
    else if p = "0xp2" then Except.ok 9
    else Except.error ()

/-- C3 counterexample: a direct pool for the pair exists (`getPool`
returns the non-zero address `0xd1` at fee 500), yet because its reported
liquidity is zero `findRoute` does evaluate the via-intermediary candidate
and returns the 2-hop route — refuting the claim that the existence of a
direct pool alone makes the direct route the chosen route. -/
theorem C3_counterexample :
    envZeroDirect.getPool "0xaa" "0xcc" 500 = Except.ok "0xd1" ∧
    "0xd1" ≠ ZERO_ADDR ∧ "0xd1" ≠ "" ∧
    findRoute envZeroDirect "0xaa" "0xcc" (some "0xbb") =
      some ⟨["0xaa", "0xbb", "0xcc"], [500, 500], true⟩ := by
  exact ⟨rfl, by decide, by decide, by decide⟩

/-- C3 (amended): the route selector probes the direct pool at each fee
tier of the fixed candidate set and selects the fee tier of maximum
effective liquidity, the first-checked tier winning ties (strict
improvement is required to displace the incumbent); whenever some direct
pool exists **with successfully-read, strictly positive liquidity**, the
direct route is the chosen route regardless of the via-intermediary
environment; and on the example liquidities
`{500 : 1000, 3000 : 5000, 10000 : 200}` the selected fee tier is 3000. -/
theorem C3_route_selection (env : ChainEnv) (ti tu : String) (hne : ti ≠ tu)
    (f l : ℕ) (h : getBestDirectPool env ti tu = some (f, l)) :
    (0 < l ∧ effLiqDirect env ti tu 500 ≤ l ∧ effLiqDirect env ti tu 3000 ≤ l ∧
      effLiqDirect env ti tu 10000 ≤ l ∧
      ((f = 500 ∧ l = effLiqDirect env ti tu 500) ∨
       (f = 3000 ∧ l = effLiqDirect env ti tu 3000 ∧
         effLiqDirect env ti tu 500 < l) ∨
       (f = 10000 ∧ l = effLiqDirect env ti tu 10000 ∧
         effLiqDirect env ti tu 500 < l ∧ effLiqDirect env ti tu 3000 < l))) ∧
    (∀ w, findRoute env ti tu w = some ⟨[ti, tu], [f], false⟩) ∧
    getBestDirectPool envEx "0xaa" "0xcc" = some (3000, 5000) := by
  have hspec := getBestDirectPool_spec env ti tu
  rw [hspec] at h
  obtain ⟨hpos, h1, h2, h3, hdisj⟩ := bestOf_eq_some _ _ _ _ _ h
  refine ⟨⟨hpos, h1, h2, h3, hdisj⟩, ?_, by decide⟩
  intro w
  unfold findRoute
  rw [if_neg hne, hspec, h]

/-- Witness for C3 at the example environment: the route finder picks the
direct route at fee 3000. -/
theorem C3_route_selection_witness :
    findRoute envEx "0xaa" "0xcc" none =
      some ⟨["0xaa", "0xcc"], [3000], false⟩ := by
  have h := C3_route_selection envEx "0xaa" "0xcc" (by decide) 3000 5000 (by decide)
  exact h.2.1 none

/-- C10: every route returned by `findRoute` is backed by strictly
positive on-chain liquidity — a direct route only arises from a direct
pool whose read liquidity is positive, and a via-WETH route only when
both hop pools exist and the bottleneck `min(liq1, liq2)` is positive;
a pool that exists but reports zero liquidity is never selected. -/
theorem C10_route_liquidity_positive (env : ChainEnv) (ti tu : String)
    (w : Option String) (r : Route) (h : findRoute env ti tu w = some r) :
    (r.viaWeth = false → ∃ f, r.fees = [f] ∧ 0 < effLiqDirect env ti tu f ∧
      getBestDirectPool env ti tu = some (f, effLiqDirect env ti tu f)) ∧
    (r.viaWeth = true → ∃ f wa, w = some wa ∧ r.fees = [f, f] ∧
      0 < effLiqVia env ti tu wa f ∧
      getBestViaWethRoute env ti tu w = some (f, effLiqVia env ti tu wa f, wa)) := by
  unfold findRoute at h
  by_cases he : ti = tu
  · rw [if_pos he] at h
    exact Option.noConfusion h
  · rw [if_neg he] at h
    rcases hd : getBestDirectPool env ti tu with _ | p
    · rw [hd] at h
      rcases hv : getBestViaWethRoute env ti tu w with _ | q
      · rw [hv] at h
        exact Option.noConfusion h
      · rw [hv] at h
        rcases q with ⟨qf, ql, qw⟩
        injection h with h'
        subst h'
        refine ⟨fun hfalse => by simp at hfalse, fun _ => ?_⟩
        obtain ⟨hw, hti, htu, hpos, hl⟩ :=
          getBestViaWethRoute_eq_some env ti tu w qf ql qw hv
        exact ⟨qf, qw, hw, rfl, hl ▸ hpos, by rw [hl]⟩
    · rw [hd] at h
      rcases p with ⟨pf, pl⟩
      injection h with h'
      subst h'
      refine ⟨fun _ => ?_, fun htrue => by simp at htrue⟩
      have hspec := getBestDirectPool_spec env ti tu
      rw [hspec] at hd
      obtain ⟨hpos, _, _, _, hdisj⟩ := bestOf_eq_some _ _ _ _ _ hd
      have hple : pl = effLiqDirect env ti tu pf := by
        rcases hdisj with ⟨hf, hl⟩ | ⟨hf, hl, _⟩ | ⟨hf, hl, _, _⟩ <;> subst hf <;>
          exact hl
      exact ⟨pf, rfl, hple ▸ hpos, by rw [hple]⟩

/-- Witness for C10 at the example environment. -/
theorem C10_route_liquidity_positive_witness :
    0 < effLiqDirect envEx "0xaa" "0xcc" 3000 ∧
    getBestDirectPool envEx "0xaa" "0xcc" =
      some (3000, effLiqDirect envEx "0xaa" "0xcc" 3000) := by
  have h := C10_route_liquidity_positive envEx "0xaa" "0xcc" none
    ⟨["0xaa", "0xcc"], [3000], false⟩ (by decide)
  obtain ⟨f, hf, hpos, hbest⟩ := h.1 rfl
  have hf3 : f = 3000 := by
    injection hf with h1 h2
    exact h1.symm
  subst hf3
  exact ⟨hpos, hbest⟩

/-! ## Batched probe engine (safeMulticall.ts, api/pools/route.ts) -/

/-- The `MultiResult` of safeMulticall.ts / `ProbeResult` of the spec: a
tagged success or failure, one per logical call. -/
inductive ProbeResult (β : Type) where
  | success (value : β)
  | failure
  deriving DecidableEq

/-- The success test `x && x.status === 'success'`. -/
def ProbeResult.isSuccess {β : Type} : ProbeResult β → Bool
  | ProbeResult.success _ => true
  | ProbeResult.failure => false

/-- One direct per-call read wrapped as
`.then(result => ({status:'success', result})).catch(() => ({status:'failure'}))`. -/
def directRead {α β : Type} (readOne : α → Except Unit β) (c : α) :
    ProbeResult β :=
  match readOne c with
  | Except.ok v => ProbeResult.success v
  | Except.error _ => ProbeResult.failure

/-- From src/lib/viem/safeMulticall.ts: delegate to the aggregated
multicall when the chain has a multicall3 contract configured (its throw
propagates to the caller), otherwise run the calls one-by-one, capturing
each call's own success or failure. -/
def safeMulticall {α β : Type} (hasMulticall : Bool)
    (mc : List α → Except Unit (List (ProbeResult β)))
    (readOne : α → Except Unit β) (contracts : List α) :
    Except Unit (List (ProbeResult β)) :=
  if hasMulticall then mc contracts
  else Except.ok (contracts.map (directRead readOne))

/-- Consecutive chunks of size `n`
(`for (let i = 0; i < contracts.length; i += chunkSize)` with `slice`).
For `n = 0` the JS loop would never terminate; the model returns `[]`
there and every theorem about chunking assumes `0 < n`. -/
def chunksOfAux {α : Type} : ℕ → ℕ → List α → List (List α)
  | _, 0, _ => []
  | 0, _ + 1, _ => []
  | fuel + 1, n + 1, l =>
    match l with
    | [] => []
    | x :: xs =>
      (x :: xs).take (n + 1) :: chunksOfAux fuel (n + 1) ((x :: xs).drop (n + 1))

/-- Consecutive chunks of size `n`, driven by a fuel of `l.length` so the
definition is structurally recursive and evaluates on concrete inputs
(each step with `0 < n` removes at least one element, so the fuel always
suffices). -/
def chunksOf {α : Type} (n : ℕ) (l : List α) : List (List α) :=
  chunksOfAux l.length n l

/-- The per-chunk body of `multicallChunked` (api/pools/route.ts): attempt
the aggregated read (a throw is caught, leaving an empty result list); if
no results came back or fewer than 5% are successes (`okShare < 0.05`,
exactly `20 * successes < res.length` — for chunk sizes in range the
double-precision quotient can never cross 0.05 against the exact ratio),
re-issue every call of the chunk as an independent read; otherwise keep
the aggregated results with their inline failures. -/
def probeChunk {α β : Type} (hasMulticall : Bool)
    (mc : List α → Except Unit (List (ProbeResult β)))
    (readOne : α → Except Unit β) (slice : List α) : List (ProbeResult β) :=
  let res : List (ProbeResult β) :=
    match safeMulticall hasMulticall mc readOne slice with
    | Except.error _ => []
    | Except.ok r => r
  if res.length = 0 ∨ 20 * res.countP (fun r => r.isSuccess) < res.length then
    slice.map (directRead readOne)
  else res

/-- From api/pools/route.ts `multicallChunked`: slice into chunks, probe
each chunk, concatenate results in input order. -/
def multicallChunked {α β : Type} (hasMulticall : Bool)
    (mc : List α → Except Unit (List (ProbeResult β)))
    (readOne : α → Except Unit β) (contracts : List α) (chunkSize : ℕ) :
    List (ProbeResult β) :=
  (chunksOf chunkSize contracts).foldl
    (fun out slice => out ++ probeChunk hasMulticall mc readOne slice) []

/-- The non-zero discovered addresses of a probe result list, as the
buffered discovery loop filters them
(`pool && pool.toLowerCase() !== zero`). -/
def discoveredAddrs (rs : List (ProbeResult String)) : List String :=
  rs.filterMap fun r =>
    match r with
    | ProbeResult.success a =>
      if a ≠ "" ∧ lowerStr a ≠ ZERO_ADDR then some a else none
    | ProbeResult.failure => none

theorem chunksOfAux_flatten {α : Type} :
    ∀ (fuel n : ℕ), 0 < n → ∀ l : List α, l.length ≤ fuel →
      (chunksOfAux fuel n l).flatten = l := by
  intro fuel
  induction fuel with
  | zero =>
    intro n hn l hl
    have : l = [] := by
      cases l with
      | nil => rfl
      | cons x xs => simp at hl
    subst this
    cases n with
    | zero => rfl
    | succ n => rfl
  | succ fuel ih =>
    intro n hn l hl
    cases n with
    | zero => omega
    | succ n =>
      cases l with
      | nil => rfl
      | cons x xs =>
        show ((x :: xs).take (n + 1) ::
          chunksOfAux fuel (n + 1) ((x :: xs).drop (n + 1))).flatten = x :: xs
        have hlen : ((x :: xs).drop (n + 1)).length ≤ fuel := by
          simp only [List.length_drop, List.length_cons]
          simp only [List.length_cons] at hl
          omega
        rw [List.flatten_cons, ih (n + 1) hn _ hlen, List.take_append_drop]

theorem chunksOf_flatten {α : Type} (n : ℕ) (hn : 0 < n) (l : List α) :
    (chunksOf n l).flatten = l :=
  chunksOfAux_flatten l.length n hn l le_rfl

theorem foldl_append_eq_join {α β : Type} (f : α → List β) (l : List α)
    (init : List β) :
    l.foldl (fun out s => out ++ f s) init = init ++ (l.map f).flatten := by
  induction l generalizing init with
  | nil => simp
  | cons x xs ih =>
    simp only [List.foldl, List.map, List.flatten]
    rw [ih]
    simp [List.append_assoc]

theorem multicallChunked_eq_join {α β : Type} (hasMc : Bool)
    (mc : List α → Except Unit (List (ProbeResult β)))
    (readOne : α → Except Unit β) (contracts : List α) (chunkSize : ℕ) :
    multicallChunked hasMc mc readOne contracts chunkSize =
      ((chunksOf chunkSize contracts).map (probeChunk hasMc mc readOne)).flatten := by
  unfold multicallChunked
  rw [foldl_append_eq_join]
  simp

theorem probeChunk_cases {α β : Type} (hasMc : Bool)
    (mc : List α → Except Unit (List (ProbeResult β)))
    (readOne : α → Except Unit β) (slice : List α) :
    probeChunk hasMc mc readOne slice = slice.map (directRead readOne) ∨
      ∃ rs, mc slice = Except.ok rs ∧ probeChunk hasMc mc readOne slice = rs := by
  unfold probeChunk safeMulticall
  cases hasMc with
  | false =>
    simp only [Bool.false_eq_true, if_false]
    split_ifs <;> exact Or.inl rfl
  | true =>
    simp only [if_true]
    rcases hm : mc slice with e | rs
    · exact Or.inl (by simp)
    · simp only
      split_ifs with hcond
      · exact Or.inl rfl
      · exact Or.inr ⟨rs, rfl, rfl⟩

theorem probeChunk_length {α β : Type} (hasMc : Bool)
    (mc : List α → Except Unit (List (ProbeResult β)))
    (readOne : α → Except Unit β) (slice : List α)
    (hmc : ∀ rs, mc slice = Except.ok rs → rs.length = slice.length) :
    (probeChunk hasMc mc readOne slice).length = slice.length := by
  rcases probeChunk_cases hasMc mc readOne slice with h | ⟨rs, hrs, h⟩
  · rw [h, List.length_map]
  · rw [h]
    exact hmc rs hrs

/-- C5: for every call list and every positive chunk size, provided the
aggregated backend returns one entry per call when it succeeds (the viem
multicall contract), the batched probe returns a plain result list — it is
a total function, so no call's failure ever escapes as an exception — of
exactly the input's length, formed chunk by chunk in input order, where
each chunk's entries are either the per-call tagged reads (each failing
call contributing its own inline `failure` entry) or the backend's tagged
entries for that chunk. -/
theorem C5_probe_shape {α β : Type} (hasMc : Bool)
    (mc : List α → Except Unit (List (ProbeResult β)))
    (readOne : α → Except Unit β) (contracts : List α) (chunkSize : ℕ)
    (hpos : 0 < chunkSize)
    (hmc : ∀ cs rs, mc cs = Except.ok rs → rs.length = cs.length) :
    (multicallChunked hasMc mc readOne contracts chunkSize).length =
      contracts.length ∧
    multicallChunked hasMc mc readOne contracts chunkSize =
      ((chunksOf chunkSize contracts).map (probeChunk hasMc mc readOne)).flatten ∧
    (∀ slice ∈ chunksOf chunkSize contracts,
      probeChunk hasMc mc readOne slice = slice.map (directRead readOne) ∨
        ∃ rs, mc slice = Except.ok rs ∧ probeChunk hasMc mc readOne slice = rs ∧
          rs.length = slice.length) := by
  refine ⟨?_, multicallChunked_eq_join hasMc mc readOne contracts chunkSize, ?_⟩
  · rw [multicallChunked_eq_join, List.length_flatten, List.map_map]
    have hlen : ∀ slice ∈ chunksOf chunkSize contracts,
        (List.length ∘ probeChunk hasMc mc readOne) slice = List.length slice :=
      fun slice _ => probeChunk_length hasMc mc readOne slice (hmc slice)
    rw [List.map_congr_left hlen]
    rw [← List.length_flatten, chunksOf_flatten chunkSize hpos]
  · intro slice _
    rcases probeChunk_cases hasMc mc readOne slice with h | ⟨rs, hrs, h⟩
    · exact Or.inl h
    · exact Or.inr ⟨rs, hrs, h, hmc slice rs hrs⟩

/-- Witness for C5: three calls in chunks of two against an
always-throwing aggregated backend, with the middle call failing — the
probe still returns three entries. -/
theorem C5_probe_shape_witness :
    (multicallChunked true (fun _ => Except.error ())
      (fun c : String => if c = "b" then Except.error () else Except.ok c)
      ["a", "b", "c"] 2).length = 3 := by
  have h := C5_probe_shape true (fun _ => Except.error ())
    (fun c : String => if c = "b" then Except.error () else Except.ok c)
    ["a", "b", "c"] 2 (by decide) (fun cs rs hr => Except.noConfusion hr)
  exact h.1

/-- C6: with an aggregated backend that always throws, the probe engine
falls back to independent per-call reads for every chunk and returns
exactly the per-call-only implementation's results — hence the same
discovered non-zero addresses; moreover, whenever an aggregated chunk
result comes back with fewer than 5% successes, that chunk is re-issued
as independent per-call reads. -/
theorem C6_fallback_equivalence {α : Type} (hasMc : Bool)
    (mc : List α → Except Unit (List (ProbeResult String)))
    (readOne : α → Except Unit String) (contracts : List α) (chunkSize : ℕ)
    (hpos : 0 < chunkSize) (hthrow : ∀ cs, mc cs = Except.error ()) :
    multicallChunked hasMc mc readOne contracts chunkSize =
      contracts.map (directRead readOne) ∧
    discoveredAddrs (multicallChunked hasMc mc readOne contracts chunkSize) =
      discoveredAddrs (contracts.map (directRead readOne)) ∧
    (∀ (mc2 : List α → Except Unit (List (ProbeResult String)))
        (slice : List α) (rs : List (ProbeResult String)),
      mc2 slice = Except.ok rs →
      20 * rs.countP (fun r => r.isSuccess) < rs.length →
      probeChunk true mc2 readOne slice = slice.map (directRead readOne)) := by
  have hchunk : ∀ slice : List α,
      probeChunk hasMc mc readOne slice = slice.map (directRead readOne) := by
    intro slice
    unfold probeChunk safeMulticall
    cases hasMc with
    | false =>
      simp only [Bool.false_eq_true, if_false]
      split_ifs <;> rfl
    | true =>
      simp [hthrow slice]
  have hmain : multicallChunked hasMc mc readOne contracts chunkSize =
      contracts.map (directRead readOne) := by
    rw [multicallChunked_eq_join]
    rw [List.map_congr_left (fun slice _ => hchunk slice)]
    rw [← List.map_flatten, chunksOf_flatten chunkSize hpos]
  refine ⟨hmain, by rw [hmain], ?_⟩
  intro mc2 slice rs hok hratio
  unfold probeChunk safeMulticall
  simp only [if_true, hok]
  rw [if_pos (Or.inr hratio)]

/-! ## Streaming and buffered discovery (api/pools/stream/route.ts,
api/pools/route.ts) -/

/-- The discovery fee-tier universe `FEES = [100, 500, 3000, 10000]`. -/
def FEES : List ℕ := [100, 500, 3000, 10000]

/-- Chain reads the streaming discovery performs. -/
structure StreamEnv where
  getPool : String → String → ℕ → Except Unit String
  slot0 : String → Except Unit (ℕ × ℤ)
  liquidity : String → Except Unit ℕ
  tickSpacing : String → Except Unit ℤ

/-- One newline-delimited line of the streaming output, by its `type`
tag: the initial diagnostic object, a pool record, the trailing summary,
or a typed error object. -/
inductive StreamLine where
  | diag (tokens uniqueAddresses pairsTotal pairsCapped : ℕ)
  | pool (pool token0 token1 : String) (fee : ℕ) (tickSpacing : ℤ)
      (liquidity : ℕ) (sqrtPriceX96 : ℕ) (tick : ℤ)
  | summary (poolsEmitted : ℕ)
  | errLine (message : String)
  deriving DecidableEq

def StreamLine.isPool : StreamLine → Bool
  | StreamLine.pool _ _ _ _ _ _ _ _ => true
  | _ => false

def StreamLine.isSummary : StreamLine → Bool
  | StreamLine.summary _ => true
  | _ => false

def StreamLine.isErr : StreamLine → Bool
  | StreamLine.errLine _ => true
  | _ => false

/-- JS `[...new Set(xs)]`: deduplicate keeping first occurrences. -/
def uniqFirstAux : List String → List String → List String
  | _, [] => []
  | seen, x :: xs =>
    if x ∈ seen then uniqFirstAux seen xs
    else x :: uniqFirstAux (x :: seen) xs

def uniqFirst (l : List String) : List String :=
  uniqFirstAux [] l

/-- All index-ordered pairs `(i < j)` of a list, as the double loop of
both discovery routes generates them. -/
def pairsOf {α : Type} : List α → List (α × α)
  | [] => []
  | x :: xs => xs.map (fun y => (x, y)) ++ pairsOf xs

/-- The pool record the streaming route emits for one `(pair, fee)` call,
if any: the `getPool` read (its throw caught into the zero address, as
`.catch(() => zero)`), the non-zero check, then the three state reads
(`Promise.all`; any throw skips the pool).  NOTE the emitted `token0`,
`token1` are the ORIGINAL enumeration pair, not the sorted pair used for
the `getPool` call. -/
def poolAddrOf (env : StreamEnv) (pair : String × String) (fee : ℕ) : String :=
  let s := if strLt (lowerStr pair.1) (lowerStr pair.2) then (pair.1, pair.2)
    else (pair.2, pair.1)
  match env.getPool s.1 s.2 fee with
  | Except.error _ => ZERO_ADDR
  | Except.ok p => p

def poolLineFor (env : StreamEnv) (pair : String × String) (fee : ℕ) :
    Option StreamLine :=
  let pool := poolAddrOf env pair fee
  if pool = "" ∨ lowerStr pool = ZERO_ADDR then none
  else
    match env.slot0 pool, env.liquidity pool, env.tickSpacing pool with
    | Except.ok s0, Except.ok liq, Except.ok spc =>
      some (StreamLine.pool pool pair.1 pair.2 fee spc liq s0.1 s0.2)
    | _, _, _ => none

/-- The full `(pair, fee)` call list of a discovery pass over `tokens`
(already filtered to the active chain): cap to 120 tokens, deduplicate
lower-cased addresses, enumerate index-ordered pairs, cap to 4000 pairs,
cross with the fee universe. -/
def discoveryCalls (tokens : List String) : List ((String × String) × ℕ) :=
  let addrs := uniqFirst ((tokens.take 120).map lowerStr)
  (((pairsOf addrs).take 4000).map (fun p => FEES.map (fun f => (p, f)))).flatten

/-- From api/pools/stream/route.ts `GET`: the diagnostic line, then —
batching the capped pairs in chunks of 50 — one pool record per
discovered pool whose state reads succeed, then the summary line carrying
the emitted count. -/
def streamLines (env : StreamEnv) (tokens : List String) : List StreamLine :=
  let listCapped := tokens.take 120
  let addrs := uniqFirst (listCapped.map lowerStr)
  let pairs := pairsOf addrs
  let cappedPairs := pairs.take 4000
  let poolLines := ((chunksOf 50 cappedPairs).map (fun batch =>
    ((batch.map (fun p => FEES.map (fun f => (p, f)))).flatten).filterMap
      (fun pf => poolLineFor env pf.1 pf.2))).flatten
  StreamLine.diag listCapped.length addrs.length pairs.length
      cappedPairs.length ::
    poolLines ++ [StreamLine.summary poolLines.length]

/-- From api/pools/route.ts `unwrapAddress` on a tagged result: a failure,
a `'0x'` payload or a string shorter than an address is "absent". -/
def unwrapAddressPR (r : ProbeResult String) : Option String :=
  match r with
  | ProbeResult.success v =>
    if lowerStr v = "0x" ∨ v.length < 42 then none else some v
  | ProbeResult.failure => none

/-- From api/pools/route.ts `GET` (the `found` loop): walk the
`(pair, fee)` calls against the probe results positionally and record
`(pool, token0, token1, fee)` with the pair re-sorted ascending for every
non-zero unwrapped address. -/
def bufferedFound (tokens : List String) (poolRes : List (ProbeResult String)) :
    List (String × String × String × ℕ) :=
  ((discoveryCalls tokens).zip poolRes).filterMap (fun c =>
    let pool := (unwrapAddressPR c.2).getD ZERO_ADDR
    if pool ≠ "" ∧ lowerStr pool ≠ ZERO_ADDR then
      let s := if strLt (lowerStr c.1.1.1) (lowerStr c.1.1.2) then
          (c.1.1.1, c.1.1.2)
        else (c.1.1.2, c.1.1.1)
      some (pool, s.1, s.2, c.1.2)
    else none)

/-- A JSON value, as far as the streaming output uses JSON: strings,
integers, and objects. -/
inductive Json where
  | str (s : String)
  | num (n : ℤ)
  | obj (fields : List (String × Json))

/-- The `JSON.stringify` string escaping for the characters that matter to
line framing: quote, backslash and newline (the emitted values are hex
addresses and decimal numbers, so no other control characters occur; a
raw newline in a value would still be escaped and could not break a
line). -/
def escChar (c : Char) : List Char :=
  if c = Char.ofNat 34 then [Char.ofNat 92, Char.ofNat 34]
  else if c = Char.ofNat 92 then [Char.ofNat 92, Char.ofNat 92]
  else if c = Char.ofNat 10 then [Char.ofNat 92, 'n']
  else [c]

/-- Decimal digits of a natural number (`toString`). -/
def natDigits (n : ℕ) : List Char :=
  if h : n < 10 then [Char.ofNat (48 + n)]
  else natDigits (n / 10) ++ [Char.ofNat (48 + n % 10)]
termination_by n
decreasing_by
  omega

/-- Decimal rendering of an integer. -/
def intDigits (n : ℤ) : List Char :=
  if n < 0 then '-' :: natDigits n.natAbs else natDigits n.natAbs

mutual

/-- Serialization of a JSON value (the character-list form of
`JSON.stringify`). -/
def renderJson : Json → List Char
  | Json.str s => Char.ofNat 34 :: (s.data.map escChar).flatten ++ [Char.ofNat 34]
  | Json.num n => intDigits n
  | Json.obj fields => Char.ofNat 123 :: renderFields fields ++ [Char.ofNat 125]

def renderFields : List (String × Json) → List Char
  | [] => []
  | [kv] => renderKV kv
  | kv :: rest => renderKV kv ++ ',' :: renderFields rest

def renderKV : String × Json → List Char
  | (k, v) =>
    (Char.ofNat 34 :: (k.data.map escChar).flatten ++ [Char.ofNat 34]) ++
      ':' :: renderJson v

end

/-- A `StreamLine` as the JSON object the route serializes. -/
def lineToJson : StreamLine → Json
  | StreamLine.diag t u pt pc => Json.obj
      [("type", Json.str "diag"), ("tokens", Json.num t),
       ("uniqueAddresses", Json.num u), ("pairsTotal", Json.num pt),
       ("pairsCapped", Json.num pc)]
  | StreamLine.pool p t0 t1 fee spc liq sqrtp tick => Json.obj
      [("type", Json.str "pool"), ("pool", Json.str p),
       ("token0", Json.str t0), ("token1", Json.str t1),
       ("fee", Json.num fee), ("tickSpacing", Json.num spc),
       ("liquidity", Json.str (String.mk (natDigits liq))),
       ("slot0", Json.obj
         [("sqrtPriceX96", Json.str (String.mk (natDigits sqrtp))),
          ("tick", Json.num tick)])]
  | StreamLine.summary n => Json.obj
      [("type", Json.str "summary"), ("poolsEmitted", Json.num n)]
  | StreamLine.errLine m => Json.obj
      [("type", Json.str "error"), ("message", Json.str m)]

/-- The enqueued chunk for one line: `JSON.stringify(obj) + '\n'`. -/
def renderLine (l : StreamLine) : String :=
  String.mk (renderJson (lineToJson l) ++ [Char.ofNat 10])

theorem escChar_no_newline (c : Char) : Char.ofNat 10 ∉ escChar c := by
  unfold escChar
  split_ifs with h1 h2 h3
  · decide
  · decide
  · decide
  · intro hm
    simp only [List.mem_singleton] at hm
    exact h3 hm.symm

theorem natDigits_no_newline (n : ℕ) : Char.ofNat 10 ∉ natDigits n := by
  have H : ∀ (k : ℕ) (n : ℕ), n ≤ k → Char.ofNat 10 ∉ natDigits n := by
    intro k
    induction k with
    | zero =>
      intro n hn
      have : n = 0 := Nat.le_zero.mp hn
      subst this
      rw [natDigits]
      decide
    | succ k ih =>
      intro n hn
      rw [natDigits]
      by_cases h : n < 10
      · rw [dif_pos h]
        intro hm
        simp only [List.mem_singleton] at hm
        revert hm
        interval_cases n <;> decide
      · rw [dif_neg h]
        intro hm
        rcases List.mem_append.mp hm with hm | hm
        · exact ih (n / 10) (by omega) hm
        · simp only [List.mem_singleton] at hm
          have h10 : n % 10 < 10 := Nat.mod_lt _ (by omega)
          revert hm
          generalize n % 10 = d at h10 ⊢
          interval_cases d <;> decide
  exact H n n le_rfl

theorem intDigits_no_newline (n : ℤ) : Char.ofNat 10 ∉ intDigits n := by
  unfold intDigits
  split_ifs with h
  · intro hm
    rcases List.mem_cons.mp hm with hm | hm
    · exact absurd hm.symm (by decide)
    · exact natDigits_no_newline _ hm
  · exact natDigits_no_newline _

theorem strRender_no_newline (s : String) :
    Char.ofNat 10 ∉
      Char.ofNat 34 :: (s.data.map escChar).flatten ++ [Char.ofNat 34] := by
  intro hm
  rcases List.mem_cons.mp hm with hm | hm
  · exact absurd hm (by decide)
  · rcases List.mem_append.mp hm with hm | hm
    · rcases List.mem_flatten.mp hm with ⟨l, hl, hc⟩
      rcases List.mem_map.mp hl with ⟨c, _, rfl⟩
      exact escChar_no_newline c hc
    · simp only [List.mem_singleton] at hm
      exact absurd hm (by decide)

mutual

theorem renderJson_no_newline : ∀ j : Json, Char.ofNat 10 ∉ renderJson j
  | Json.str s => strRender_no_newline s
  | Json.num n => intDigits_no_newline n
  | Json.obj fields => by
    intro hm
    rcases List.mem_cons.mp hm with hm | hm
    · exact absurd hm (by decide)
    · rcases List.mem_append.mp hm with hm | hm
      · exact renderFields_no_newline fields hm
      · simp only [List.mem_singleton] at hm
        exact absurd hm (by decide)

theorem renderFields_no_newline :
    ∀ fs : List (String × Json), Char.ofNat 10 ∉ renderFields fs
  | [] => by simp [renderFields]
  | [kv] => by
    show Char.ofNat 10 ∉ renderKV kv
    exact renderKV_no_newline kv
  | kv :: kv2 :: rest => by
    show Char.ofNat 10 ∉ renderKV kv ++ ',' :: renderFields (kv2 :: rest)
    intro hm
    rcases List.mem_append.mp hm with hm | hm
    · exact renderKV_no_newline kv hm
    · rcases List.mem_cons.mp hm with hm | hm
      · exact absurd hm (by decide)
      · exact renderFields_no_newline (kv2 :: rest) hm

theorem renderKV_no_newline : ∀ kv : String × Json, Char.ofNat 10 ∉ renderKV kv
  | (k, v) => by
    show Char.ofNat 10 ∉
      (Char.ofNat 34 :: (k.data.map escChar).flatten ++ [Char.ofNat 34]) ++
        ':' :: renderJson v
    intro hm
    rcases List.mem_append.mp hm with hm | hm
    · exact strRender_no_newline k hm
    · rcases List.mem_cons.mp hm with hm | hm
      · exact absurd hm (by decide)
      · exact renderJson_no_newline v hm

end

theorem poolLineFor_isPool (env : StreamEnv) (pair : String × String) (fee : ℕ)
    (l : StreamLine) (h : poolLineFor env pair fee = some l) :
    l.isPool = true := by
  unfold poolLineFor at h
  dsimp only at h
  by_cases hz : poolAddrOf env pair fee = "" ∨
      lowerStr (poolAddrOf env pair fee) = ZERO_ADDR
  · rw [if_pos hz] at h
    exact Option.noConfusion h
  · rw [if_neg hz] at h
    rcases h0 : env.slot0 (poolAddrOf env pair fee) with e | s0 <;>
      rcases h1 : env.liquidity (poolAddrOf env pair fee) with e1 | liq <;>
        rcases h2 : env.tickSpacing (poolAddrOf env pair fee) with e2 | spc <;>
          rw [h0, h1, h2] at h <;>
          first
            | exact Option.noConfusion h
            | (cases h; rfl)

theorem flatten_map_flatten {α : Type} (L : List (List (List α))) :
    (L.map List.flatten).flatten = L.flatten.flatten := by
  induction L with
  | nil => rfl
  | cons x xs ih =>
    simp only [List.map, List.flatten_cons, List.flatten_append, ih]

theorem filterMap_flatten_eq {α β : Type} (f : α → Option β)
    (L : List (List α)) :
    L.flatten.filterMap f = (L.map (fun l => l.filterMap f)).flatten := by
  induction L with
  | nil => rfl
  | cons x xs ih =>
    simp only [List.map, List.flatten_cons, List.filterMap_append, ih]

theorem flatten_chunk_filterMap {α β γ : Type} (n : ℕ) (hn : 0 < n)
    (g : α → List β) (f : β → Option γ) (l : List α) :
    ((chunksOf n l).map (fun batch =>
      ((batch.map g).flatten).filterMap f)).flatten =
      ((l.map g).flatten).filterMap f := by
  have key : ∀ m : List α, ((m.map g).flatten).filterMap f =
      (m.map (fun a => (g a).filterMap f)).flatten := by
    intro m
    rw [filterMap_flatten_eq, List.map_map]
    rfl
  rw [List.map_congr_left (fun batch _ => key batch), key]
  have hrw : (fun b : List α => (b.map fun a => (g a).filterMap f).flatten) =
      List.flatten ∘ (fun b : List α => b.map fun a => (g a).filterMap f) := rfl
  rw [hrw, ← List.map_map, flatten_map_flatten, ← List.map_flatten,
    chunksOf_flatten n hn]

theorem streamLines_eq_flat (env : StreamEnv) (tokens : List String) :
    streamLines env tokens =
      StreamLine.diag (tokens.take 120).length
          (uniqFirst ((tokens.take 120).map lowerStr)).length
          (pairsOf (uniqFirst ((tokens.take 120).map lowerStr))).length
          ((pairsOf (uniqFirst ((tokens.take 120).map lowerStr))).take 4000).length ::
        (discoveryCalls tokens).filterMap (fun pf => poolLineFor env pf.1 pf.2) ++
        [StreamLine.summary
          ((discoveryCalls tokens).filterMap
            (fun pf => poolLineFor env pf.1 pf.2)).length] := by
  unfold streamLines discoveryCalls
  dsimp only
  rw [flatten_chunk_filterMap 50 (by decide)]

/-- C7 (amended): the streaming output is the diagnostic line, then
exactly one pool record per `(pair, fee)` call whose pool is present and
whose state reads all succeed, in deterministic call order, then a final
summary line whose `poolsEmitted` equals the number of pool records —
i.e. the count of emitted lines that are neither the summary, an error
line, nor the initial diagnostic line; and every emitted line is the
serialization of a single JSON object followed by exactly one terminating
newline, with no newline character anywhere inside the serialized object. -/
theorem C7_streaming_output (env : StreamEnv) (tokens : List String) :
    ((streamLines env tokens).getLast? =
      some (StreamLine.summary
        ((streamLines env tokens).countP (fun l => l.isPool)))) ∧
    (∀ l ∈ streamLines env tokens,
      renderLine l = String.mk (renderJson (lineToJson l) ++ [Char.ofNat 10]) ∧
      Char.ofNat 10 ∉ renderJson (lineToJson l)) ∧
    ((streamLines env tokens).filter (fun l => l.isPool) =
      (discoveryCalls tokens).filterMap (fun pf => poolLineFor env pf.1 pf.2)) := by
  have hshape := streamLines_eq_flat env tokens
  have hmem : ∀ l ∈ (discoveryCalls tokens).filterMap
      (fun pf => poolLineFor env pf.1 pf.2), (fun l => StreamLine.isPool l) l = true := by
    intro l hl
    rcases List.mem_filterMap.mp hl with ⟨pf, _, hpf⟩
    exact poolLineFor_isPool env pf.1 pf.2 l hpf
  have hfilter : (streamLines env tokens).filter (fun l => l.isPool) =
      (discoveryCalls tokens).filterMap (fun pf => poolLineFor env pf.1 pf.2) := by
    rw [hshape, List.filter_append, List.filter_cons_of_neg
      (by simp [StreamLine.isPool]), List.filter_eq_self.mpr hmem]
    simp [StreamLine.isPool]
  refine ⟨?_, ?_, hfilter⟩
  · rw [List.countP_eq_length_filter, hfilter, hshape]
    exact List.getLast?_concat _
  · intro l _
    exact ⟨rfl, renderJson_no_newline _⟩

/-- A syntactically valid 42-character pool address. -/
def poolAddrX : String := "0x1111111111111111111111111111111111111111"

/-- A chain with one discoverable pool (pair `0xaa/0xbb`, fee 500) whose
state reads all throw. -/
def envC7 : StreamEnv where
  getPool := fun t0 t1 fee =>
    if t0 = "0xaa" ∧ t1 = "0xbb" ∧ fee = 500 then Except.ok poolAddrX
    else Except.ok ZERO_ADDR
  slot0 := fun _ => Except.error ()
  liquidity := fun _ => Except.ok 5
  tickSpacing := fun _ => Except.ok 60

/-- C7 counterexample: a run discovering one pool whose state reads fail
emits only the diagnostic and the summary.  `poolsEmitted` is 0, yet the
run emitted 1 non-summary, non-error line (the diagnostic), and the
discovered pool produced no record — refuting both the claimed count
equation and the claimed one-record-per-discovered-pool property. -/
theorem C7_counterexample :
    streamLines envC7 ["0xAA", "0xBB"] =
      [StreamLine.diag 2 2 1 1, StreamLine.summary 0] ∧
    (streamLines envC7 ["0xAA", "0xBB"]).countP
      (fun l => !(l.isSummary || l.isErr)) = 1 ∧
    envC7.getPool "0xaa" "0xbb" 500 = Except.ok poolAddrX ∧
    lowerStr poolAddrX ≠ ZERO_ADDR ∧ (0 : ℕ) ≠ 1 := by
  exact ⟨by decide, by decide, rfl, by decide, by decide⟩

/-- A chain whose single pool (pair `0xaa/0xbb`, fee 500) has fully
readable state. -/
def envC9 : StreamEnv where
  getPool := fun t0 t1 fee =>
    if t0 = "0xaa" ∧ t1 = "0xbb" ∧ fee = 500 then Except.ok poolAddrX
    else Except.ok ZERO_ADDR
  slot0 := fun _ => Except.ok (79228, 0)
  liquidity := fun _ => Except.ok 5
  tickSpacing := fun _ => Except.ok 60

/-- The probe results the buffered route would see for the same token
list and chain as `envC9` (calls in pair-major, fee-minor order). -/
def bufResC9 : List (ProbeResult String) :=
  [ProbeResult.success ZERO_ADDR, ProbeResult.success poolAddrX,
   ProbeResult.success ZERO_ADDR, ProbeResult.success ZERO_ADDR]

/-- C9: with the token list enumerated in descending address order, the
streaming route emits the pool record with `token0 = "0xbb"`,
`token1 = "0xaa"` — the ORIGINAL enumeration order, NOT canonical order
(`token0 < token1` fails) — while the buffered route's `found` record for
the very same pool is correctly sorted ascending.  The streaming record
violates the PoolKey canonical-order invariant the claim asserts for both
modes. -/
theorem C9_canonical_order :
    streamLines envC9 ["0xbb", "0xaa"] =
      [StreamLine.diag 2 2 1 1,
       StreamLine.pool poolAddrX "0xbb" "0xaa" 500 60 5 79228 0,
       StreamLine.summary 1] ∧
    strLt (lowerStr "0xbb") (lowerStr "0xaa") = false ∧
    bufferedFound ["0xbb", "0xaa"] bufResC9 =
      [(poolAddrX, "0xaa", "0xbb", 500)] ∧
    strLt (lowerStr "0xaa") (lowerStr "0xbb") = true := by
  exact ⟨by decide, by decide, by decide, by decide⟩

/-! ## Quote wiring (src/lib/univ3/quotes.ts, src/hooks/useQuote.ts) -/

/-- The chain reads quoting performs: the factory `getPool` (through the
sorted pair) and the QuoterV2 `quoteExactInputSingle` primitive, taking
`(tokenIn, tokenOut, amountIn, fee)`. -/
structure QuoteEnv where
  getPool : String → String → ℕ → Except String String
  quoteSingle : String → String → ℕ → ℕ → Except String ℕ

/-- From src/lib/univ3/quotes.ts `quoteExactInSingle`: resolve the pool
address via the sorted pair (`getPoolAddress`), fail with a pool-not-found
error if absent, scale the human amount by the input token's decimals
(`parseUnits`, modelled for whole-number human amounts), reject a zero
amount, then call the quoting primitive ONCE with the direct
`(tokenIn, tokenOut, fee)`. -/
def quoteExactInSingle (env : QuoteEnv) (tokenIn tokenOut : String) (fee : ℕ)
    (amountInHuman : ℕ) (decimalsIn : ℕ) : Except String ℕ := do
  let st ← sortTokens tokenIn tokenOut
  let pool ← env.getPool st.1 st.2.1 fee
  if pool = "" ∨ pool = ZERO_ADDR then
    Except.error "Pool not found for fee"
  else
    let amountIn := amountInHuman * 10 ^ decimalsIn
    if amountIn = 0 then Except.error "Enter a non-zero amount"
    else env.quoteSingle tokenIn tokenOut amountIn fee

/-- From src/hooks/useQuote.ts: same-token swaps fail, a non-positive
amount is "no quote yet" (`none`), and otherwise the hook calls
`quoteExactInSingle` on `(tokenIn, tokenOut, fee)` alone — the hook takes
NO route path, so the `pathTokens`/`pathFees` SwapCard passes are ignored
(the source comments: "These may be ignored by current useQuote until you
wire it up"). -/
def useQuoteAmountOut (env : QuoteEnv) (tokenIn tokenOut : String) (fee : ℕ)
    (amountInHuman : ℕ) (decIn : ℕ) : Except String (Option ℕ) :=
  if lowerStr tokenIn = lowerStr tokenOut then
    Except.error "Pick two different tokens"
  else if amountInHuman = 0 then Except.ok none
  else (quoteExactInSingle env tokenIn tokenOut fee amountInHuman decIn).map some

/-- The per-hop quote the spec (section 4.6) describes for a 2-hop route:
quote hop 1, re-scale its raw output to human units with the intermediate
token's decimals, feed that as hop 2's human input, and return hop 2's
raw output.  This follows the spec's words, for comparison with the
code's `useQuoteAmountOut`, which takes no route and quotes one direct
hop. -/
def specTwoHopQuote (env : QuoteEnv) (t0 t1 t2 : String) (fee1 fee2 : ℕ)
    (amountInHuman : ℕ) (dec0 dec1 : ℕ) : Except String ℕ := do
  let out1 ← quoteExactInSingle env t0 t1 fee1 amountInHuman dec0
  quoteExactInSingle env t1 t2 fee2 (out1 / 10 ^ dec1) dec1

/-- A chain with no direct `0xaa/0xcc` pool but both via-`0xbb` hop pools:
hop 1 doubles the input, hop 2 triples it. -/
def envQ : QuoteEnv where
  getPool := fun t0 t1 _ =>
    if t0 = "0xaa" ∧ t1 = "0xbb" then Except.ok "0xh1"
    else if t0 = "0xbb" ∧ t1 = "0xcc" then Except.ok "0xh2"
    else Except.ok ZERO_ADDR
  quoteSingle := fun tin tout amountIn _ =>
    if tin = "0xaa" ∧ tout = "0xbb" then Except.ok (amountIn * 2)
    else if tin = "0xbb" ∧ tout = "0xcc" then Except.ok (amountIn * 3)
    else Except.error "no direct pool"

/-- The same chain as `envQ`, seen by the route finder. -/
def envQroute : ChainEnv where
  getPool := fun t0 t1 fee =>
    if t0 = "0xaa" ∧ t1 = "0xbb" ∧ fee = 3000 then Except.ok "0xh1"
    else if t0 = "0xbb" ∧ t1 = "0xcc" ∧ fee = 3000 then Except.ok "0xh2"
    else Except.ok ZERO_ADDR
  liquidity := fun p =>
    if p = "0xh1" then Except.ok 11
    else if p = "0xh2" then Except.ok 13
    else Except.error ()

/-- C8: on this chain the route finder resolves the 2-hop route
`0xaa → 0xbb → 0xcc`, the per-hop quote of the spec yields
`Except.ok 300` (hop 1: 50 → 100 raw; re-scaled to 10 human units of the
intermediate token; hop 2: 100 → 300 raw) — but the code's quote hook,
which takes no route and quotes `(tokenIn, tokenOut)` as a single direct
hop, fails with a pool-not-found error since no direct pool exists.  The
quoting primitive is invoked once with the endpoints, never once per
hop. -/
theorem C8_two_hop_quote_unwired :
    findRoute envQroute "0xaa" "0xcc" (some "0xbb") =
      some ⟨["0xaa", "0xbb", "0xcc"], [3000, 3000], true⟩ ∧
    useQuoteAmountOut envQ "0xaa" "0xcc" 3000 5 1 =
      Except.error "Pool not found for fee" ∧
    specTwoHopQuote envQ "0xaa" "0xbb" "0xcc" 3000 3000 5 1 1 =
      Except.ok 300 := by
  exact ⟨by decide, rfl, rfl⟩

/-- Witness for C6: two calls against an always-throwing aggregated
backend, the second call failing per-call — the probe equals the
per-call-only implementation. -/
theorem C6_fallback_equivalence_witness :
    multicallChunked true (fun _ => Except.error ())
      (fun c : String => if c = "b" then Except.error () else Except.ok poolAddrX)
      ["a", "b"] 2 =
      ["a", "b"].map (directRead
        (fun c : String => if c = "b" then Except.error () else Except.ok poolAddrX)) := by
  exact (C6_fallback_equivalence true (fun _ => Except.error ())
    (fun c : String => if c = "b" then Except.error () else Except.ok poolAddrX)
    ["a", "b"] 2 (by decide) (fun cs => rfl)).1
